import Mathlib

/-!
Shallow embedding of the Linux sandbox interception core of this repository
(PTraceSandbox.cpp and bxl_observer.cpp): the open/openat/creat event
classification, the tracee-memory string reader, the tracee registry and the
fork/clone handler, the access dedupe cache, errno decoding of the syscall
return register, the unlink handlers, the bounded report transport, the
path resolver with symlink-cycle protection, and the non-file mode check.
All machine arithmetic is modelled over Nat/Int with explicit reductions
modulo powers of two where the C code relies on fixed-width wrapping.
-/

/-- The C string terminator character. -/
def NUL : Char := Char.ofNat 0

/- Linux x86-64 constants used by the embedded code (values from fcntl.h,
   stat.h, limits.h for this target). -/

def O_WRONLY : Nat := 1

def O_RDWR : Nat := 2

def O_ACCMODE : Nat := 3

def O_CREAT : Nat := 64

def O_TRUNC : Nat := 512

def PATH_MAX : Nat := 4096

def PIPE_BUF : Nat := 4096

def AT_FDCWD : Int := -100

def S_IFMT : Nat := 0xF000

def S_IFDIR : Nat := 0x4000

def S_IFREG : Nat := 0x8000

def S_IFLNK : Nat := 0xA000

/-- The es_event_type_t constructors that the embedded code distinguishes. -/
inductive EsEvent where
  | notifyOpen
  | notifyCreate
  | notifyWrite
  | notifyStat
  | notifyAccess
  | notifyTruncate
  | notifySetattrlist
  | notifySetextattr
  | notifyDeleteextattr
  | notifySetflags
  | notifySetowner
  | notifySetmode
  | notifyUtimes
  | notifySettime
  | notifySetacl
  | notifyGetattrlist
  | notifyGetextattr
  | notifyListextattr
  | notifyFork
  | notifyExec
  | notifyExit
  | notifyUnlink
  | notifyReadlink
  | notifyLink
  deriving DecidableEq, BEq, Repr

/-- C truthiness of an integer value (used where C converts int to bool). -/
def cTrue (n : Nat) : Bool := n != 0

/-- The C result of an equality comparison between two integers (1 or 0). -/
def cEq (a b : Nat) : Nat := if a = b then 1 else 0

/-- PTraceSandbox::ReportOpen, the isCreate flag:
    bool isCreate = !pathExists && (oflag & (O_CREAT|O_TRUNC)). -/
def reportOpenIsCreate (pathExists : Bool) (oflag : Nat) : Bool :=
  !pathExists && cTrue (oflag &&& (O_CREAT ||| O_TRUNC))

/-- PTraceSandbox::ReportOpen, the isWrite flag, transcribed with C operator
    precedence: equality binds tighter than the bitwise and, so the source
    expression (oflag & O_ACCMODE == O_WRONLY) is oflag & (O_ACCMODE == O_WRONLY). -/
def reportOpenIsWrite (pathExists : Bool) (oflag : Nat) : Bool :=
  pathExists && (cTrue (oflag &&& (O_CREAT ||| O_TRUNC)) &&
    (cTrue (oflag &&& cEq O_ACCMODE O_WRONLY) || cTrue (oflag &&& cEq O_ACCMODE O_RDWR)))

/-- PTraceSandbox::ReportOpen event classification. -/
def reportOpenEvent (pathExists : Bool) (oflag : Nat) : EsEvent :=
  if reportOpenIsCreate pathExists oflag then EsEvent.notifyCreate
  else if reportOpenIsWrite pathExists oflag then EsEvent.notifyWrite
  else EsEvent.notifyOpen

/-- Modelled from the spec: the intended open classification, with the access
    mode masked first and then compared (mask-then-compare), as the spec's
    open-classification sentence and its design note describe. -/
def reportOpenEventIntended (pathExists : Bool) (oflag : Nat) : EsEvent :=
  if !pathExists && cTrue (oflag &&& (O_CREAT ||| O_TRUNC)) then EsEvent.notifyCreate
  else if pathExists && cTrue (oflag &&& (O_CREAT ||| O_TRUNC)) &&
      ((oflag &&& O_ACCMODE == O_WRONLY) || (oflag &&& O_ACCMODE == O_RDWR)) then
    EsEvent.notifyWrite
  else EsEvent.notifyOpen

/-- PTraceSandbox::ReadArgumentString, inner for loop over the bytes of one
    word peeked from tracee memory. The state is currentStringLength; the
    result is the new currentStringLength and whether reading finished.
    Each visited byte is stored at index currentStringLength (pre-increment),
    and the loop stops when a null byte is seen (if nullTerminated) or when
    the incremented count reaches the requested length. -/
def readWordBytes : List Nat → Bool → Int → Nat → Nat × Bool
  | [], _, _, csl => (csl, false)
  | b :: rest, nullTerminated, length, csl =>
    let csl' := csl + 1
    if (nullTerminated && b == 0) || (0 < length && (csl' : Int) == length) then (csl', true)
    else readWordBytes rest nullTerminated length csl'

/-- PTraceSandbox::ReadArgumentString, outer while loop. Tracee memory is a
    finite list of words (8 bytes each); exhausting it models the
    PTRACE_PEEKTEXT failure path, which stores a terminator and stops.
    The result is the index at which the final null terminator is stored,
    which is also the largest index written into the local buffer. -/
def readArgLoop : List (List Nat) → Bool → Int → Nat → Nat
  | [], _, _, csl => csl
  | w :: ws, nullTerminated, length, csl =>
    let r := readWordBytes w nullTerminated length csl
    if r.2 then r.1
    else readArgLoop ws nullTerminated length r.1

/-- Largest index of the local argument buffer written by ReadArgumentString
    for the given tracee memory contents and parameters. -/
def maxWriteIndex (mem : List (List Nat)) (nullTerminated : Bool) (length : Int) : Nat :=
  readArgLoop mem nullTerminated length 0

/-- Tracee memory holding 4104 consecutive non-null bytes (513 words) at the
    string address, followed by unreadable memory. -/
def overflowMemory : List (List Nat) := List.replicate 513 (List.replicate 8 65)

/-- One entry of PTraceSandbox::m_traceeTable: (pid, ppid, exe path). -/
structure TraceeRecord where
  pid : Int
  ppid : Int
  exe : String
  deriving DecidableEq, Repr

/-- PTraceSandbox::FindParentProcess: find the registry record whose pid
    field equals the given pid. -/
def findParentProcess (table : List TraceeRecord) (pid : Int) : Option TraceeRecord :=
  table.find? (fun r => r.pid == pid)

/-- The fields of the fork/clone IOEvent synthesized by HandleChildProcess. -/
structure ForkReport where
  sourcePid : Int
  childPid : Int
  parentPid : Int
  exePath : String
  deriving DecidableEq, Repr

/-- PTraceSandbox::HandleChildProcess: reads the new child pid from the event
    message, looks up FindParentProcess(newPid), uses that record's ppid/exe
    on a hit and (0, tracer program path) on a miss, then appends the child
    record (newPid, m_traceePid, exe). Returns the synthesized fork event
    fields and the updated registry. -/
def handleChildProcess (table : List TraceeRecord) (traceePid newPid : Int)
    (tracerProgPath : String) : ForkReport × List TraceeRecord :=
  let maybeParent := findParentProcess table newPid
  let pe : Int × String :=
    match maybeParent with
    | some r => (r.ppid, r.exe)
    | none => (0, tracerProgPath)
  (⟨traceePid, newPid, pe.1, pe.2⟩, table ++ [⟨newPid, traceePid, pe.2⟩])

/-- BxlObserver::IsCacheHit, the coalescing switch. The metadata-mutation
    group breaks out with key NOTIFY_WRITE. The metadata-read group
    (getattrlist/getextattr/listextattr/access/stat) assigns key
    NOTIFY_STAT but is missing a break in the source, so control falls
    through to the default case, which overwrites the key with the event
    itself; its net effect is therefore the identity. -/
def coalesceKey (event : EsEvent) : EsEvent :=
  match event with
  | .notifyTruncate => .notifyWrite
  | .notifySetattrlist => .notifyWrite
  | .notifySetextattr => .notifyWrite
  | .notifyDeleteextattr => .notifyWrite
  | .notifySetflags => .notifyWrite
  | .notifySetowner => .notifyWrite
  | .notifySetmode => .notifyWrite
  | .notifyWrite => .notifyWrite
  | .notifyUtimes => .notifyWrite
  | .notifySettime => .notifyWrite
  | .notifySetacl => .notifyWrite
  | e => e

/-- Insert a path into the dedupe cache set of the given key. -/
def cacheInsert (c : List (EsEvent × List String)) (k : EsEvent) (p : String) :
    List (EsEvent × List String) :=
  match c with
  | [] => [(k, [p])]
  | (k', s) :: rest =>
    if k' == k then (k', p :: s) :: rest else (k', s) :: cacheInsert rest k p

/-- BxlObserver::IsCacheHit over an explicit cache state (key -> set of
    paths), assuming the bounded-wait lock was acquired. Returns the hit
    flag and the updated cache. Never caches when disposed, when a second
    path is present, or for fork/exec/exit events. On a fresh key the path
    is inserted and the result is a miss; otherwise the result reports
    whether the path was already in the key's set. -/
def isCacheHit (disposed : Bool) (event : EsEvent) (path secondPath : String)
    (c : List (EsEvent × List String)) : Bool × List (EsEvent × List String) :=
  if disposed || decide (0 < secondPath.length) || event == EsEvent.notifyFork ||
      event == EsEvent.notifyExec || event == EsEvent.notifyExit then
    (false, c)
  else
    let key := coalesceKey event
    match c.find? (fun e => e.1 == key) with
    | none => (false, (key, [path]) :: c)
    | some e => if e.2.contains path then (true, c) else (false, cacheInsert c key path)

/-- The unsigned 64-bit machine word holding a signed long value. -/
def toUnsigned64 (x : Int) : Nat := (x % (2 ^ 64 : Int)).toNat

/-- Conversion of an unsigned value to a signed 32-bit int (gcc wrapping). -/
def toSigned32 (n : Nat) : Int :=
  if n % 2 ^ 32 < 2 ^ 31 then ((n % 2 ^ 32 : Nat) : Int)
  else ((n % 2 ^ 32 : Nat) : Int) - 2 ^ 32

/-- PTraceSandbox::GetErrno: returnValue == 0 ? 0 :
    0xffffffffffffffffUL - returnValue, with the subtraction performed on
    unsigned 64-bit words and the result converted to int. -/
def getErrno (returnValue : Int) : Int :=
  if returnValue = 0 then 0
  else toSigned32 ((2 ^ 64 - 1) - toUnsigned64 returnValue)

/-- PTraceSandbox::Handleunlink report guard: the access report is emitted
    iff path[0] != a null terminator. The path comes from a C string, so
    this is emptiness of the argument (modelled as a char list). -/
def handleunlinkReports (path : List Char) : Bool :=
  decide (path.getD 0 NUL ≠ NUL)

/-- PTraceSandbox::Handleunlinkat report guard:
    dirfd != AT_FDCWD && path[0] != a null terminator. -/
def handleunlinkatReports (dirfd : Int) (path : List Char) : Bool :=
  decide (dirfd ≠ AT_FDCWD) && decide (path.getD 0 NUL ≠ NUL)

/-- The tracer session state relevant to tracee accounting: the registry,
    and counters of the reports it emits (per-tracee exit reports from
    Handleexit, the synthetic exit report for the tracer's own pid, and
    exit notifications on the monitor message queue). -/
structure Session where
  table : List TraceeRecord
  tracerProgPath : String
  traceeExitReports : Nat
  ownExitReports : Nat
  mqExitNotifications : Nat
  deriving DecidableEq, Repr

/-- PTraceSandbox::AllTraceesHaveExited: sends the per-tracee exit report
    (Handleexit), erases every registry record whose pid is the just-exited
    pid, and if the registry became empty additionally sends the synthetic
    exit report for the tracer's own pid. Returns whether the registry is
    now empty together with the updated session. -/
def allTraceesHaveExited (s : Session) (traceePid : Int) : Bool × Session :=
  let t := s.table.filter (fun r => !(r.pid == traceePid))
  let shouldExit := decide (t.length = 0)
  (shouldExit,
   { s with
       table := t
       traceeExitReports := s.traceeExitReports + 1
       ownExitReports := s.ownExitReports + (if shouldExit then 1 else 0) })

/-- The wait-loop events relevant to registry accounting: a tracee exited
    (WIFEXITED/WIFSIGNALED), or a clone/fork/vfork trace event reported by
    a tracee for a new child pid. -/
inductive LoopEvent where
  | childExited (pid : Int)
  | cloneChild (reporter : Int) (newPid : Int)
  deriving DecidableEq, Repr

/-- One iteration of the AttachToProcess wait loop, restricted to the events
    above. The Bool result is whether the loop breaks (all tracees exited). -/
def stepLoop (s : Session) (e : LoopEvent) : Session × Bool :=
  match e with
  | .childExited pid =>
    let r := allTraceesHaveExited s pid
    (r.2, r.1)
  | .cloneChild reporter newPid =>
    let r := handleChildProcess s.table reporter newPid s.tracerProgPath
    ({ s with table := r.2 }, false)

/-- The AttachToProcess wait loop over a finite event schedule. -/
def runLoop : Session → List LoopEvent → Session
  | s, [] => s
  | s, e :: es =>
    let r := stepLoop s e
    if r.2 then r.1 else runLoop r.1 es

/-- A full session: run the wait loop, then send the single exit
    notification to the monitor message queue. -/
def runSession (s : Session) (es : List LoopEvent) : Session :=
  let s' := runLoop s es
  { s' with mqExitNotifications := s'.mqExitNotifications + 1 }

/-- sizeof(uint), the length prefix of a wire report. -/
def PrefixLength : Nat := 4

/-- The payload bound of one wire report: PIPE_BUF minus the length prefix. -/
def maxMessageLength : Nat := PIPE_BUF - PrefixLength

/-- Outcome of the report transport functions; the fatal constructors model
    the _fatal process aborts in the source. -/
inductive SendOutcome where
  | skippedTreeCompleted
  | fatalMessageTooLarge
  | fatalOversizedBuffer
  | fatalShortWrite
  | sentOk (bytes : Nat)
  deriving DecidableEq, Repr

/-- BxlObserver::Send: fatal if the buffer size exceeds PIPE_BUF, fatal if
    the write returned fewer bytes than requested, otherwise success.
    osWritten is the byte count the underlying write call returned. -/
def send (bufsiz : Nat) (osWritten : Nat) : SendOutcome :=
  if PIPE_BUF < bufsiz then SendOutcome.fatalOversizedBuffer
  else if osWritten < bufsiz then SendOutcome.fatalShortWrite
  else SendOutcome.sentOk bufsiz

/-- BxlObserver::SendReport: numWritten is what BuildReport returned for the
    full message, rebuiltLen what it returns after the debug-path truncation,
    and osWrite gives the byte count the report sink's write call returns for
    a requested size. Process-tree-completed reports are skipped; a message
    reaching maxMessageLength is fatal unless it is a debug message, in which
    case it is rebuilt truncated and sent; the buffer handed to Send is the
    message plus the 4-byte prefix, clamped to PIPE_BUF. -/
def sendReport (isTreeCompleted : Bool) (numWritten rebuiltLen : Nat)
    (isDebugMessage : Bool) (osWrite : Nat → Nat) : SendOutcome :=
  if isTreeCompleted then SendOutcome.skippedTreeCompleted
  else if maxMessageLength ≤ numWritten then
    if !isDebugMessage then SendOutcome.fatalMessageTooLarge
    else
      let siz := min (rebuiltLen + PrefixLength) PIPE_BUF
      send siz (osWrite siz)
  else
    let siz := min (numWritten + PrefixLength) PIPE_BUF
    send siz (osWrite siz)

/-- A filesystem of symbolic links: pairs of (absolute path, link target).
    readlink succeeds exactly on the recorded paths. -/
abbrev FS := List (String × String)

/-- readlink against the symlink table. -/
def readlinkFs (fs : FS) (p : String) : Option String :=
  (List.find? (fun e => e.1 == p) fs).map (fun e => e.2)

/-- The state of BxlObserver::resolve_path's scan loop: the path buffer
    contents (up to the C string terminator), the offset of pFullpath into
    it, the visited symlink set, and the readlink reports emitted. -/
structure RState where
  path : List Char
  pos : Nat
  visited : List String
  reports : List String
  deriving DecidableEq, Repr

/-- find_prev_slash: the nearest '/' strictly before the given offset
    (offset 0 if there is none; the scanned buffer always starts with '/'). -/
def findPrevSlash (l : List Char) : Nat → Nat
  | 0 => 0
  | p + 1 => if l.getD p ' ' = '/' then p else findPrevSlash l p

/-- shift_left's effect on the buffer: remove n characters starting at
    offset start. -/
def deleteCount (l : List Char) (start n : Nat) : List Char :=
  l.take start ++ l.drop (start + n)

/-- The buffer contents up to an offset, as the string readlink is called on. -/
def strOf (l : List Char) : String := String.mk l

/-- The slash before the previous component: the "/../" case of the source
    looks one more separator back unless it is already at the root. -/
def prevSlash2 (l : List Char) (pos : Nat) : Nat :=
  if 0 < findPrevSlash l pos then findPrevSlash l (findPrevSlash l pos)
  else findPrevSlash l pos

/-- The dot-segment half of one resolve_path loop iteration: when the
    current character is '/', collapse "//" (drop one char), "/./" (drop
    two), or "/../" (drop the previous component as well); otherwise fall
    through to the readlink half. Returns the rewritten buffer and offset,
    or none when no collapse applies. -/
def collapseStep (l : List Char) (pos : Nat) : Option (List Char × Nat) :=
  if l.getD pos NUL = '/' then
    if pos - findPrevSlash l pos - 1 = 0 then
      some (deleteCount l pos 1, pos)
    else if pos - findPrevSlash l pos - 1 = 1 ∧ l.getD (pos - 1) NUL = '.' then
      some (deleteCount l (pos - 1) 2, pos - 1)
    else if pos - findPrevSlash l pos - 1 = 2 ∧ l.getD (pos - 1) NUL = '.' ∧
        l.getD (pos - 2) NUL = '.' then
      some (deleteCount l (pos + 1 - (pos - prevSlash2 l pos)) (pos - prevSlash2 l pos),
            prevSlash2 l pos + 1)
    else none
  else none

/-- The remainder of the original path appended after the readlink target:
    the source skips a doubled separator when the target ends with '/' and
    the current character is '/'. -/
def spliceSuffix (target : String) (l : List Char) (pos : Nat) : List Char :=
  if target.data.getLast? = some '/' ∧ l.getD pos NUL = '/' then l.drop (pos + 1)
  else l.drop pos

/-- The readlink half of one resolve_path loop iteration: attempt readlink
    on the path built so far at every separator (and at the end when
    following the final symlink); on a non-link either advance or stop at
    the end of the buffer; on a link stop if that path was already visited,
    otherwise record and report it and splice the target in (restarting
    from the root for an absolute target, from the replaced segment for a
    relative one). none means the loop exits. -/
def resolveStepB (fs : FS) (follow : Bool) (s : RState) : Option RState :=
  match (if s.path.getD s.pos NUL = '/' ∨ (s.path.length ≤ s.pos ∧ follow = true) then
      readlinkFs fs (strOf (s.path.take s.pos)) else none) with
  | none => if s.path.length ≤ s.pos then none else some { s with pos := s.pos + 1 }
  | some target =>
    if s.visited.contains (strOf (s.path.take s.pos)) = true then none
    else if (target.data ++ spliceSuffix target s.path s.pos).getD 0 NUL = '/' then
      some { path := target.data ++ spliceSuffix target s.path s.pos, pos := 1,
             visited := strOf (s.path.take s.pos) :: s.visited,
             reports := strOf (s.path.take s.pos) :: s.reports }
    else
      some { path := s.path.take (findPrevSlash s.path s.pos + 1) ++
               (target.data ++ spliceSuffix target s.path s.pos),
             pos := findPrevSlash s.path s.pos + 1,
             visited := strOf (s.path.take s.pos) :: s.visited,
             reports := strOf (s.path.take s.pos) :: s.reports }

/-- One full iteration of the resolve_path while loop; none means the loop
    exits (termination). -/
def resolveStep (fs : FS) (follow : Bool) (s : RState) : Option RState :=
  match collapseStep s.path s.pos with
  | some lp => some { s with path := lp.1, pos := lp.2 }
  | none => resolveStepB fs follow s

/-- Iterate the loop at most n times, stopping at a terminal state. -/
def resolveIter (fs : FS) (follow : Bool) : Nat → RState → RState
  | 0, s => s
  | n + 1, s =>
    match resolveStep fs follow s with
    | none => s
    | some s' => resolveIter fs follow n s'

/-- The loop state on entry to resolve_path for an absolute input:
    pFullpath starts at fullpath + 1, nothing visited, nothing reported. -/
def initState (p : String) : RState := ⟨p.data, 1, [], []⟩

/-- The resolve_path loop terminates from a state: some number of
    iterations reaches a state with no further step. -/
def Terminates (fs : FS) (follow : Bool) (s : RState) : Prop :=
  ∃ n, resolveStep fs follow (resolveIter fs follow n s) = none

/-- Scan-loop invariant: the offset is at least 1 and at most the buffer
    length. -/
def RInv (s : RState) : Prop := 1 ≤ s.pos ∧ s.pos ≤ s.path.length

/-- Progress measure within one symlink budget level: shrinks on every
    collapse and on every advance. -/
def innerM (s : RState) : Nat := (s.path.length - s.pos) + s.path.length

/-- Number of filesystem symlinks not yet in the visited set: shrinks on
    every symlink splice. -/
def budget (fs : FS) (visited : List String) : Nat :=
  ((fs.map (fun e => e.1)).filter (fun p => !(visited.contains p))).length

/-- The self-loop filesystem: /x is a symlink to /x. -/
def cycleFs : FS := [("/x", "/x")]

/-- BxlObserver::is_non_file: a nonzero mode that is neither a directory,
    a regular file, nor a symlink. -/
def is_non_file (mode : Nat) : Bool :=
  mode != 0 && !((mode &&& S_IFMT) == S_IFDIR) && !((mode &&& S_IFMT) == S_IFREG) &&
    !((mode &&& S_IFMT) == S_IFLNK)

/-- Whether create_access_internal skipped before the access check or went
    on to check the access and build a report. -/
inductive AccessOutcome where
  | notChecked
  | checkedAndReported
  deriving DecidableEq, Repr

/-- BxlObserver::create_access_internal control flow: return the not-checked
    sentinel on a cache hit (when the cache is consulted); otherwise compute
    the mode via get_mode when the caller passed 0, return the sentinel for
    non-file targets, and otherwise run the access check and build the
    report. cacheHit is the IsCacheHit result and getModeResult the value
    get_mode would return for the report path. -/
def create_access_internal (checkCache cacheHit : Bool) (modeArg getModeResult : Nat) :
    AccessOutcome :=
  if checkCache && cacheHit then AccessOutcome.notChecked
  else
    let mode := if modeArg == 0 then getModeResult else modeArg
    if is_non_file mode then AccessOutcome.notChecked
    else AccessOutcome.checkedAndReported

/-- C1: the reported event class for open/openat/creat. The source's isWrite
    expression parses as oflag & (O_ACCMODE == O_WRONLY), which is always 0,
    so isWrite is identically false and an existing path opened with
    O_CREAT|O_WRONLY is classified open, not write as the spec intends. -/
theorem c1_open_classification_bug :
    reportOpenEvent true (O_CREAT ||| O_WRONLY) = EsEvent.notifyOpen ∧
    reportOpenEventIntended true (O_CREAT ||| O_WRONLY) = EsEvent.notifyWrite ∧
    ∀ (pathExists : Bool) (oflag : Nat), reportOpenIsWrite pathExists oflag = false := by
  refine ⟨by decide, by decide, ?_⟩
  intro pathExists oflag
  simp [reportOpenIsWrite, cEq, cTrue, O_ACCMODE, O_WRONLY, O_RDWR]

set_option maxRecDepth 100000 in
/-- C2: ReadArgumentString bounds. Reading a 4104-byte unterminated string
    in null-terminated mode with no length cap stores bytes at indices up
    to 4104, past the last valid index PATH_MAX = 4096 of the local
    char[PATH_MAX + 1] buffer. -/
theorem c2_read_argument_string_overflow :
    maxWriteIndex overflowMemory true 0 = 4104 ∧ PATH_MAX < 4104 := by
  constructor
  · rfl
  · decide

/-- C3: HandleChildProcess looks up the new child's pid, not the reporting
    process's pid, in the registry; the child was not yet inserted, so the
    lookup misses and the fallback (parent 0, tracer program path) is used
    even though the reporting process's record is present. -/
theorem c3_parent_lookup_misses :
    (handleChildProcess [⟨100, 1, "/bin/parent"⟩] 100 101 "/tracer/prog").1 =
      ⟨100, 101, 0, "/tracer/prog"⟩ ∧
    (handleChildProcess [⟨100, 1, "/bin/parent"⟩] 100 101 "/tracer/prog").2 =
      [⟨100, 1, "/bin/parent"⟩, ⟨101, 100, "/tracer/prog"⟩] ∧
    findParentProcess [⟨100, 1, "/bin/parent"⟩] 100 = some ⟨100, 1, "/bin/parent"⟩ ∧
    findParentProcess [⟨100, 1, "/bin/parent"⟩] 101 = none := by
  refine ⟨rfl, rfl, rfl, rfl⟩

/-- C4: the dedupe cache coalesces the metadata-mutation group (SETMODE then
    WRITE on the same path is a miss then a hit), but the metadata-read
    group is not coalesced: the missing break makes ACCESS and STAT key on
    themselves, so ACCESS then STAT on the same path is a miss then a miss,
    not the hit the spec describes. -/
theorem c4_read_class_not_coalesced :
    (isCacheHit false EsEvent.notifySetmode "/f" "" []).1 = false ∧
    (isCacheHit false EsEvent.notifyWrite "/f" ""
      (isCacheHit false EsEvent.notifySetmode "/f" "" []).2).1 = true ∧
    (isCacheHit false EsEvent.notifyAccess "/f" "" []).1 = false ∧
    (isCacheHit false EsEvent.notifyStat "/f" ""
      (isCacheHit false EsEvent.notifyAccess "/f" "" []).2).1 = false ∧
    (isCacheHit false EsEvent.notifyWrite "/g" ""
      (isCacheHit false EsEvent.notifyWrite "/f" "" []).2).1 = false := by
  refine ⟨rfl, rfl, rfl, rfl, rfl⟩

/-- C5: GetErrno is off by one on error returns and wrong on positive
    returns: a raw return of -2 yields 1 (the claim says 2), a raw return
    of -1 yields 0, a raw positive return of 5 yields -6 (the claim says 0);
    only a raw 0 yields 0. -/
theorem c5_geterrno_off_by_one :
    getErrno (-2) = 1 ∧ getErrno (-1) = 0 ∧ getErrno 5 = -6 ∧ getErrno 0 = 0 := by
  refine ⟨by decide, by decide, by decide, rfl⟩

/-- C6 counterexample: unlinkat with dirfd = AT_FDCWD and a non-empty path
    emits no report, contradicting the claim that the report is emitted for
    every dirfd value whenever the path is non-empty. -/
theorem c6_counterexample :
    handleunlinkatReports (-100) ['a'] = false ∧ (['a'] : List Char) ≠ [] := by
  refine ⟨rfl, by decide⟩

/-- C6 (amended): for paths free of interior null characters, unlink
    reports iff the path is non-empty, and unlinkat reports iff the path is
    non-empty and additionally dirfd differs from AT_FDCWD. -/
theorem c6_unlink_report_conditions :
    ∀ p : List Char, NUL ∉ p →
      (handleunlinkReports p = true ↔ p ≠ []) ∧
      (∀ d : Int, handleunlinkatReports d p = true ↔ (d ≠ AT_FDCWD ∧ p ≠ [])) := by
  intro p hp
  have hfirst : (p.getD 0 NUL ≠ NUL) ↔ p ≠ [] := by
    cases p with
    | nil => simp [List.getD]
    | cons c t =>
      simp only [List.getD_cons_zero, ne_eq, reduceCtorEq, not_false_eq_true, iff_true]
      intro h
      exact hp (h ▸ List.mem_cons_self c t)
  constructor
  · rw [handleunlinkReports, decide_eq_true_iff]
    exact hfirst
  · intro d
    rw [handleunlinkatReports, Bool.and_eq_true, decide_eq_true_iff, decide_eq_true_iff, hfirst]

/-- C6 witness: instantiation at dirfd 5 and path "a". -/
theorem c6_witness :
    NUL ∉ (['a'] : List Char) ∧
    (handleunlinkatReports 5 ['a'] = true ↔ ((5 : Int) ≠ AT_FDCWD ∧ (['a'] : List Char) ≠ [])) :=
  ⟨by decide, (c6_unlink_report_conditions ['a'] (by decide)).2 5⟩

/-- C7: AllTraceesHaveExited removes exactly the records of the just-exited
    pid, returns true iff the registry is empty afterwards, and emits the
    synthetic exit report for the tracer's own pid exactly when it became
    empty; a session with one root tracee that gains one cloned child
    (registry size 2) and then sees both exit ends with an empty registry
    and exactly one termination notification on the monitor queue. -/
theorem c7_tracee_registry_lifecycle :
    (∀ (s : Session) (pid : Int) (r : TraceeRecord),
      r ∈ (allTraceesHaveExited s pid).2.table ↔ (r ∈ s.table ∧ r.pid ≠ pid)) ∧
    (∀ (s : Session) (pid : Int),
      (allTraceesHaveExited s pid).1 = true ↔ (allTraceesHaveExited s pid).2.table = []) ∧
    (∀ (s : Session) (pid : Int),
      (allTraceesHaveExited s pid).2.ownExitReports =
        s.ownExitReports + (if (allTraceesHaveExited s pid).2.table = [] then 1 else 0)) ∧
    ((stepLoop ⟨[⟨10, 5, "/root/exe"⟩], "/tracer", 0, 0, 0⟩
        (LoopEvent.cloneChild 10 11)).1.table.length = 2 ∧
      (runSession ⟨[⟨10, 5, "/root/exe"⟩], "/tracer", 0, 0, 0⟩
        [LoopEvent.cloneChild 10 11, LoopEvent.childExited 10,
         LoopEvent.childExited 11]).table = [] ∧
      (runSession ⟨[⟨10, 5, "/root/exe"⟩], "/tracer", 0, 0, 0⟩
        [LoopEvent.cloneChild 10 11, LoopEvent.childExited 10,
         LoopEvent.childExited 11]).mqExitNotifications = 1 ∧
      (runSession ⟨[⟨10, 5, "/root/exe"⟩], "/tracer", 0, 0, 0⟩
        [LoopEvent.cloneChild 10 11, LoopEvent.childExited 10,
         LoopEvent.childExited 11]).ownExitReports = 1) := by
  refine ⟨?_, ?_, ?_, by refine ⟨rfl, rfl, rfl, rfl⟩⟩
  · intro s pid r
    simp [allTraceesHaveExited, List.mem_filter]
  · intro s pid
    simp [allTraceesHaveExited, List.length_eq_zero]
  · intro s pid
    simp [allTraceesHaveExited, List.length_eq_zero]

/-- C8: a report whose encoding reaches the payload bound is fatal unless it
    is a debug message, in which case it is rebuilt truncated and sent; and
    Send is fatal on a buffer larger than PIPE_BUF or on a short write. -/
theorem c8_report_size_bound (numWritten rebuiltLen : Nat) (osWrite : Nat → Nat)
    (hbig : maxMessageLength ≤ numWritten) (hok : ∀ n, n ≤ osWrite n) :
    sendReport false numWritten rebuiltLen false osWrite = SendOutcome.fatalMessageTooLarge ∧
    sendReport false numWritten rebuiltLen true osWrite =
      SendOutcome.sentOk (min (rebuiltLen + PrefixLength) PIPE_BUF) ∧
    (∀ bufsiz osWritten : Nat, PIPE_BUF < bufsiz →
      send bufsiz osWritten = SendOutcome.fatalOversizedBuffer) ∧
    (∀ bufsiz osWritten : Nat, bufsiz ≤ PIPE_BUF → osWritten < bufsiz →
      send bufsiz osWritten = SendOutcome.fatalShortWrite) := by
  refine ⟨?_, ?_, ?_, ?_⟩
  · simp [sendReport, hbig]
  · have hw := hok (min (rebuiltLen + PrefixLength) PIPE_BUF)
    have hle : min (rebuiltLen + PrefixLength) PIPE_BUF ≤ PIPE_BUF := Nat.min_le_right _ _
    simp only [sendReport, send, Bool.false_eq_true, if_false, if_pos hbig, Bool.not_true]
    split_ifs with h1 h2
    · omega
    · omega
    · rfl
  · intro bufsiz osWritten h
    simp [send, h]
  · intro bufsiz osWritten h1 h2
    simp only [send]
    rw [if_neg (by omega), if_pos h2]

/-- C8 witness: a 5000-byte message against an exact-write sink. -/
theorem c8_witness :
    sendReport false 5000 100 false id = SendOutcome.fatalMessageTooLarge ∧
    sendReport false 5000 100 true id = SendOutcome.sentOk 104 :=
  ⟨(c8_report_size_bound 5000 100 id (by decide) (fun n => Nat.le_refl n)).1,
   (c8_report_size_bound 5000 100 id (by decide) (fun n => Nat.le_refl n)).2.1⟩

/-- C10: a mode of 0 (get_mode failed, e.g. a nonexistent path) is not
    classified as a non-file, so create_access_internal still performs the
    access check and builds a report for such paths (absent a cache hit);
    only a nonzero mode that is neither directory, regular file, nor
    symlink is skipped. -/
theorem c10_mode_zero_not_non_file :
    is_non_file 0 = false ∧
    (∀ checkCache cacheHit : Bool,
      create_access_internal checkCache cacheHit 0 0 =
        (if checkCache && cacheHit then AccessOutcome.notChecked
         else AccessOutcome.checkedAndReported)) ∧
    (∀ m : Nat, is_non_file m = true ↔
      (m ≠ 0 ∧ m &&& S_IFMT ≠ S_IFDIR ∧ m &&& S_IFMT ≠ S_IFREG ∧ m &&& S_IFMT ≠ S_IFLNK)) := by
  refine ⟨rfl, by decide, ?_⟩
  intro m
  simp [is_non_file, and_assoc]

/-- find_prev_slash lands strictly before the offset it starts from. -/
theorem findPrevSlash_lt (l : List Char) : ∀ p : Nat, 0 < p → findPrevSlash l p < p := by
  intro p
  induction p with
  | zero => omega
  | succ q ih =>
    intro _
    rw [findPrevSlash]
    split
    · omega
    · rcases Nat.eq_zero_or_pos q with h0 | hq
      · subst h0
        rw [findPrevSlash]
        omega
      · exact Nat.lt_trans (ih hq) (Nat.lt_succ_self q)

/-- The slash before the previous component is strictly before the offset. -/
theorem prevSlash2_lt (l : List Char) (pos : Nat) (h : 0 < pos) : prevSlash2 l pos < pos := by
  rw [prevSlash2]
  split
  case isTrue hf =>
    exact Nat.lt_trans (findPrevSlash_lt l _ hf) (findPrevSlash_lt l pos h)
  case isFalse hf => exact findPrevSlash_lt l pos h

/-- A getD that differs from the default hits a real element. -/
theorem getD_ne_default_lt (l : List Char) (n : Nat) (d : Char) (h : l.getD n d ≠ d) :
    n < l.length := by
  by_contra hc
  exact h (List.getD_eq_default l d (Nat.le_of_not_lt hc))

/-- Length of a deleteCount rewrite that stays within the buffer. -/
theorem length_deleteCount (l : List Char) (s n : Nat) (h : s + n ≤ l.length) :
    (deleteCount l s n).length = l.length - n := by
  simp only [deleteCount, List.length_append, List.length_take, List.length_drop]
  omega

/-- Filtering with a stronger predicate keeps no more elements. -/
theorem filter_length_mono {α : Type} (l : List α) (p q : α → Bool)
    (h : ∀ a, p a = true → q a = true) :
    (l.filter p).length ≤ (l.filter q).length := by
  induction l with
  | nil => simp
  | cons a t ih =>
    by_cases hp : p a = true
    · rw [List.filter_cons_of_pos hp, List.filter_cons_of_pos (h a hp)]
      simpa using ih
    · rw [List.filter_cons_of_neg (by simpa using hp)]
      by_cases hq : q a = true
      · rw [List.filter_cons_of_pos hq]
        exact Nat.le_succ_of_le ih
      · rw [List.filter_cons_of_neg (by simpa using hq)]
        exact ih

/-- Visiting a filesystem symlink that was not yet visited strictly shrinks
    the budget of unvisited symlinks. -/
theorem budget_cons_lt (fs : FS) (v : List String) (q : String)
    (hq : q ∈ fs.map (fun e => e.1)) (hv : ¬ v.contains q = true) :
    budget fs (q :: v) < budget fs v := by
  rw [budget, budget]
  revert hq
  induction fs.map (fun e => e.1) with
  | nil => intro hq; cases hq
  | cons a t ih =>
    intro hq
    have hmono : ∀ x : String, (!((q :: v).contains x)) = true → (!(v.contains x)) = true := by
      intro x hx
      rw [Bool.not_eq_true'] at hx ⊢
      rw [List.contains_cons] at hx
      exact (Bool.or_eq_false_iff.mp hx).2
    rw [List.filter_cons, List.filter_cons]
    rcases List.mem_cons.mp hq with heq | hmem
    · subst heq
      have h1 : (!((q :: v).contains q)) = false := by
        simp [List.contains_cons]
      have h2 : (!(v.contains q)) = true := by
        rw [Bool.not_eq_true']
        simpa using hv
      simp only [h1, h2, Bool.false_eq_true, if_false, if_true, List.length_cons]
      exact Nat.lt_succ_of_le (filter_length_mono t _ _ hmono)
    · by_cases h1 : (!((q :: v).contains a)) = true
      · simp only [h1, hmono a h1, if_true, List.length_cons]
        exact Nat.succ_lt_succ (ih hmem)
      · have h1' : (!((q :: v).contains a)) = false := by simpa using h1
        simp only [h1', Bool.false_eq_true, if_false]
        by_cases h2 : (!(v.contains a)) = true
        · simp only [h2, if_true, List.length_cons]
          exact Nat.lt_succ_of_lt (ih hmem)
        · have h2' : (!(v.contains a)) = false := by simpa using h2
          simp only [h2', Bool.false_eq_true, if_false]
          exact ih hmem

/-- A successful readlink means the queried path is a recorded symlink. -/
theorem readlinkFs_mem (fs : FS) (p t : String) (h : readlinkFs fs p = some t) :
    p ∈ fs.map (fun e => e.1) := by
  rw [readlinkFs] at h
  rcases Option.map_eq_some'.mp h with ⟨e, he, _⟩
  have hbeq := List.find?_some he
  have hmem : e ∈ fs := List.mem_of_find?_eq_some he
  simp only [beq_iff_eq] at hbeq
  exact List.mem_map.mpr ⟨e, hmem, hbeq⟩

/-- Every dot-segment collapse keeps the offset inside the buffer and
    strictly shrinks the progress measure. -/
theorem collapseStep_decrease (l : List Char) (pos : Nat) (l' : List Char) (pos' : Nat)
    (h1 : 1 ≤ pos) (_h2 : pos ≤ l.length)
    (h : collapseStep l pos = some (l', pos')) :
    1 ≤ pos' ∧ pos' ≤ l'.length ∧
      (l'.length - pos') + l'.length < (l.length - pos) + l.length := by
  rw [collapseStep] at h
  split at h
  case isFalse => exact absurd h (by simp)
  case isTrue hslash =>
    have hlt : pos < l.length := getD_ne_default_lt l pos NUL (by rw [hslash]; decide)
    have hPrev : findPrevSlash l pos < pos := findPrevSlash_lt l pos h1
    split at h
    case isTrue hc0 =>
      simp only [Option.some.injEq, Prod.mk.injEq] at h
      obtain ⟨hl, hp⟩ := h
      subst hl; subst hp
      have hlen : (deleteCount l pos 1).length = l.length - 1 :=
        length_deleteCount l pos 1 (by omega)
      refine ⟨h1, ?_, ?_⟩ <;> rw [hlen] <;> omega
    case isFalse hc0 =>
      split at h
      case isTrue hc1 =>
        simp only [Option.some.injEq, Prod.mk.injEq] at h
        obtain ⟨hl, hp⟩ := h
        subst hl; subst hp
        have hpos2 : 2 ≤ pos := by omega
        have hlen : (deleteCount l (pos - 1) 2).length = l.length - 2 :=
          length_deleteCount l (pos - 1) 2 (by omega)
        refine ⟨by omega, ?_, ?_⟩ <;> rw [hlen] <;> omega
      case isFalse hc1 =>
        split at h
        case isFalse => exact absurd h (by simp)
        case isTrue hc2 =>
          simp only [Option.some.injEq, Prod.mk.injEq] at h
          obtain ⟨hl, hp⟩ := h
          subst hl; subst hp
          have hp2 : prevSlash2 l pos < pos := prevSlash2_lt l pos (by omega)
          have hlen : (deleteCount l (pos + 1 - (pos - prevSlash2 l pos))
              (pos - prevSlash2 l pos)).length = l.length - (pos - prevSlash2 l pos) :=
            length_deleteCount l _ _ (by omega)
          refine ⟨by omega, ?_, ?_⟩ <;> rw [hlen] <;> omega

/-- Every readlink-half step either keeps the visited set and strictly
    shrinks the progress measure (a plain advance) or strictly shrinks the
    budget of unvisited symlinks (a symlink splice). -/
theorem resolveStepB_decrease (fs : FS) (follow : Bool) (s s' : RState)
    (hInv : RInv s) (h : resolveStepB fs follow s = some s') :
    RInv s' ∧ ((s'.visited = s.visited ∧ innerM s' < innerM s) ∨
      budget fs s'.visited < budget fs s.visited) := by
  obtain ⟨hpos1, hpos2⟩ := hInv
  rw [resolveStepB] at h
  split at h
  case h_1 heq =>
    split at h
    case isTrue => exact absurd h (by simp)
    case isFalse hend =>
      simp only [Option.some.injEq] at h
      subst h
      refine ⟨⟨by simp [Nat.le_succ_of_le hpos1], by simpa using Nat.not_le.mp hend⟩, ?_⟩
      left
      refine ⟨rfl, ?_⟩
      have := Nat.not_le.mp hend
      simp only [innerM]
      omega
  case h_2 target heq =>
    have hrl : readlinkFs fs (strOf (s.path.take s.pos)) = some target := by
      by_cases hcond : (s.path.getD s.pos NUL = '/' ∨ (s.path.length ≤ s.pos ∧ follow = true))
      · rwa [if_pos hcond] at heq
      · rw [if_neg hcond] at heq
        exact absurd heq (by simp)
    have hdom : strOf (s.path.take s.pos) ∈ fs.map (fun e => e.1) :=
      readlinkFs_mem fs _ target hrl
    split at h
    case isTrue => exact absurd h (by simp)
    case isFalse hvis =>
      split at h
      case isTrue habs =>
        simp only [Option.some.injEq] at h
        subst h
        refine ⟨⟨le_refl 1, ?_⟩, Or.inr ?_⟩
        · exact getD_ne_default_lt _ 0 NUL (by rw [habs]; decide)
        · exact budget_cons_lt fs s.visited _ hdom hvis
      case isFalse habs =>
        simp only [Option.some.injEq] at h
        subst h
        have hfps : findPrevSlash s.path s.pos < s.pos := findPrevSlash_lt s.path s.pos hpos1
        refine ⟨⟨by simp, ?_⟩, Or.inr (budget_cons_lt fs s.visited _ hdom hvis)⟩
        simp only [List.length_append, List.length_take]
        omega

/-- Every loop step either keeps the visited set and strictly shrinks the
    progress measure or strictly shrinks the symlink budget, while
    preserving the scan invariant. -/
theorem resolveStep_decrease (fs : FS) (follow : Bool) (s s' : RState)
    (hInv : RInv s) (h : resolveStep fs follow s = some s') :
    RInv s' ∧ ((s'.visited = s.visited ∧ innerM s' < innerM s) ∨
      budget fs s'.visited < budget fs s.visited) := by
  rw [resolveStep] at h
  split at h
  case h_1 lp heq =>
    simp only [Option.some.injEq] at h
    subst h
    have hd := collapseStep_decrease s.path s.pos lp.1 lp.2 hInv.1 hInv.2 heq
    exact ⟨⟨hd.1, hd.2.1⟩, Or.inl ⟨rfl, hd.2.2⟩⟩
  case h_2 heq => exact resolveStepB_decrease fs follow s s' hInv h

/-- Unfolding one successful step of the bounded iterator. -/
theorem resolveIter_succ_of_step (fs : FS) (follow : Bool) (n : Nat) (s s' : RState)
    (h : resolveStep fs follow s = some s') :
    resolveIter fs follow (n + 1) s = resolveIter fs follow n s' := by
  rw [resolveIter, h]

/-- Termination is preserved backwards across one step. -/
theorem terminates_of_step (fs : FS) (follow : Bool) (s s' : RState)
    (h : resolveStep fs follow s = some s') (ht : Terminates fs follow s') :
    Terminates fs follow s := by
  obtain ⟨n, hn⟩ := ht
  exact ⟨n + 1, by rwa [resolveIter_succ_of_step fs follow n s s' h]⟩

/-- Induction on the symlink budget and the progress measure: every state
    satisfying the scan invariant reaches a terminal state. -/
theorem terminates_aux (fs : FS) (follow : Bool) :
    ∀ b i s, RInv s → budget fs s.visited ≤ b → innerM s ≤ i → Terminates fs follow s := by
  intro b
  induction b with
  | zero =>
    intro i
    induction i with
    | zero =>
      intro s hInv _ hi
      exfalso
      obtain ⟨hp1, hp2⟩ := hInv
      rw [innerM] at hi
      omega
    | succ i ihi =>
      intro s hInv hb hi
      cases hstep : resolveStep fs follow s with
      | none => exact ⟨0, hstep⟩
      | some s' =>
        have hd := resolveStep_decrease fs follow s s' hInv hstep
        rcases hd.2 with ⟨hveq, hlt⟩ | hblt
        · refine terminates_of_step fs follow s s' hstep (ihi s' hd.1 ?_ (by omega))
          rw [hveq]
          exact hb
        · exact absurd (Nat.lt_of_lt_of_le hblt hb) (Nat.not_lt_zero _)
  | succ b ihb =>
    intro i
    induction i with
    | zero =>
      intro s hInv _ hi
      exfalso
      obtain ⟨hp1, hp2⟩ := hInv
      rw [innerM] at hi
      omega
    | succ i ihi =>
      intro s hInv hb hi
      cases hstep : resolveStep fs follow s with
      | none => exact ⟨0, hstep⟩
      | some s' =>
        have hd := resolveStep_decrease fs follow s s' hInv hstep
        rcases hd.2 with ⟨hveq, hlt⟩ | hblt
        · refine terminates_of_step fs follow s s' hstep (ihi s' hd.1 ?_ (by omega))
          rw [hveq]
          exact hb
        · exact terminates_of_step fs follow s s' hstep
            (ihb (innerM s') s' hd.1 (by omega) (Nat.le_refl _))

/-- C9: the resolve_path scan loop terminates for every filesystem, every
    follow-final-symlink flag and every absolute input path, symlink cycles
    included; on the self-loop /x -> /x it performs three steps (advance,
    splice, advance), then stops at the already-visited symlink, leaving
    the path built so far, /x. -/
theorem c9_resolve_path_terminates :
    (∀ (fs : FS) (follow : Bool) (p : String),
      p.data.getD 0 NUL = '/' → Terminates fs follow (initState p)) ∧
    (resolveIter cycleFs true 3 (initState "/x")).path = "/x".data ∧
    (resolveIter cycleFs true 3 (initState "/x")).visited = ["/x"] ∧
    resolveStep cycleFs true (resolveIter cycleFs true 3 (initState "/x")) = none := by
  refine ⟨?_, by decide, by decide, by decide⟩
  intro fs follow p habs
  have hlen : 0 < p.data.length := getD_ne_default_lt p.data 0 NUL (by rw [habs]; decide)
  exact terminates_aux fs follow (budget fs (initState p).visited) (innerM (initState p))
    (initState p) ⟨Nat.le_refl 1, hlen⟩ (Nat.le_refl _) (Nat.le_refl _)

/-- C9 witness: the cycle filesystem and the absolute path /x. -/
theorem c9_witness : Terminates cycleFs true (initState "/x") :=
  c9_resolve_path_terminates.1 cycleFs true "/x" (by decide)
